import Mathlib

/-!
Verification of the `shushpy` comment/docstring stripper.

The development embeds, as Lean definitions, the transformation core of
`shushpy/__init__.py` (the `DocstringStripper` AST visitor and the
`strip_comments` entry point), the CLI path dispatch of `shushpy/cli.py`
(`_process_paths`), and the file enumeration helper `_iter_python_files`.

The Python grammar facility (`ast.parse` / `ast.unparse`) is an external
library the code relies on.  The abstract syntax tree is embedded as an
inductive type covering the node kinds that the stripper handles specially
(Module / ClassDef / FunctionDef / AsyncFunctionDef, expression statements
with literal constants) together with representative other statements
(assignments, return, pass, if) and expressions (bytes literals, f-strings,
binary `+` concatenations).  `ast.unparse` is modelled for that fragment,
following CPython's `ast._Unparser` (`fill`/`maybe_newline` line discipline,
a blank line before each class/function definition, the `repr`-based
rendering of string constants, and the triple-quoted docstring writer
`_write_docstring` / `_str_literal_helper`).  `ast.parse` is kept abstract:
the transformation entry point is parameterised by a parse function, and
concrete instantiations supply finite lookup parsers whose values match the
real Python parser on the strings involved.
-/

/-- Constant values of `ast.Constant` relevant here: string literals, bytes
literals and `None`.  (The stripper only ever tests for `str` values.) -/
inductive Const where
  | str (s : String)
  | bytes (s : String)
  | noneC
deriving DecidableEq, Repr

/-- Expressions of the embedded fragment: literal constants, f-strings
(`ast.JoinedStr`, modelled with their text payload) and binary `+`
concatenations (`ast.BinOp` with `ast.Add`). -/
inductive PyExpr where
  | constant (c : Const)
  | fstring (s : String)
  | binop (l r : PyExpr)
deriving DecidableEq, Repr

/-- Statements of the embedded fragment.  `exprStmt` is `ast.Expr`;
`functionDef`, `asyncFunctionDef` and `classDef` carry their body;
`ifStmt` is a compound statement whose body is recursed into by
`generic_visit` but which receives no docstring treatment. -/
inductive Stmt where
  | exprStmt (e : PyExpr)
  | assign (target : String) (e : PyExpr)
  | ret (e : PyExpr)
  | pass
  | functionDef (name : String) (body : List Stmt)
  | asyncFunctionDef (name : String) (body : List Stmt)
  | classDef (name : String) (body : List Stmt)
  | ifStmt (test : PyExpr) (body : List Stmt)

/-- Embedding of `ast.Module`: a top-level ordered statement list. -/
structure PyModule where
  body : List Stmt

/-- The docstring test used by `DocstringStripper._strip_docstring_from_body`:
the statement is an `ast.Expr` whose value is an `ast.Constant` holding a
`str`. -/
def isDocstringStmt : Stmt → Bool
  | .exprStmt (.constant (.str _)) => true
  | _ => false

/-- Embedding of `DocstringStripper._strip_docstring_from_body` (`__init__.py` lines
53-73): if the body is non-empty and its first statement is an expression
statement whose value is a string constant, return the body without that
first statement; otherwise return the body unchanged. -/
def stripDocstringFromBody : List Stmt → List Stmt
  | [] => []
  | .exprStmt (.constant (.str _)) :: rest => rest
  | first :: rest => first :: rest

/-!  The visitor `DocstringStripper` (`__init__.py` lines 40-93).  Each of
`visit_Module`, `visit_ClassDef`, `visit_FunctionDef` and
`visit_AsyncFunctionDef` replaces the node's body with
`_strip_docstring_from_body(body)` and then calls `generic_visit`, which
re-dispatches on every statement of the new body (descending through
non-definition compound statements such as `if`).  `visitStrippedBody`
fuses the strip step with the traversal of the resulting body so that the
recursion is structural; `visitStrippedBody_eq` below recovers the exact
composed shape `visitBody (stripDocstringFromBody b)` of the source. -/

mutual

def visitStmt : Stmt → Stmt
  | .exprStmt e => .exprStmt e
  | .assign x e => .assign x e
  | .ret e => .ret e
  | .pass => .pass
  | .functionDef n b => .functionDef n (visitStrippedBody b)
  | .asyncFunctionDef n b => .asyncFunctionDef n (visitStrippedBody b)
  | .classDef n b => .classDef n (visitStrippedBody b)
  | .ifStmt t b => .ifStmt t (visitBody b)

def visitBody : List Stmt → List Stmt
  | [] => []
  | s :: rest => visitStmt s :: visitBody rest

def visitStrippedBody : List Stmt → List Stmt
  | [] => []
  | .exprStmt (.constant (.str _)) :: rest => visitBody rest
  | s :: rest => visitStmt s :: visitBody rest

end

/-- Embedding of `visit_Module` (`__init__.py` lines 75-78): strip the module body's
leading docstring, then visit the children. -/
def visitModule (m : PyModule) : PyModule :=
  ⟨visitBody (stripDocstringFromBody m.body)⟩

/-!  Model of `ast.unparse` for the embedded fragment, following CPython's
`ast._Unparser`.  Output is assembled from fragments; a fragment is either
the rendered token of a string-like literal (a string constant, bytes
constant, f-string, or a docstring written by `_write_docstring`) or
non-literal source text.  `fill` emits a newline followed by the current
indentation before each statement (the leading newline of the very first
statement is suppressed, since `maybe_newline` only writes when output
already exists, which `dropLeadingNewlines` accounts for); class and
function definitions additionally call `maybe_newline` first, producing a
blank separator line.  The model covers ASCII string contents faithfully;
code points above 127 are carried through unescaped. -/

/-- Lower-case hexadecimal digit, used by the `\xHH` escapes of `repr`. -/
def hexDigitChar (n : Nat) : Char :=
  if n < 10 then Char.ofNat (48 + n) else Char.ofNat (87 + n)

/-- Escapes of Python's `repr` for `str`, given the chosen quote character:
backslash, the quote itself, newline, carriage return and tab are
backslash-escaped, other non-printable ASCII becomes `\xHH`. -/
def reprEscChar (q : Char) (c : Char) : List Char :=
  if c = '\\' then ['\\', '\\']
  else if c = q then ['\\', q]
  else if c = '\n' then ['\\', 'n']
  else if c = '\r' then ['\\', 'r']
  else if c = '\t' then ['\\', 't']
  else if c.toNat < 32 || c.toNat == 127 then
    ['\\', 'x', hexDigitChar (c.toNat / 16), hexDigitChar (c.toNat % 16)]
  else [c]

/-- Quote preference of Python's `repr`: single quotes, unless the string
contains a single quote and no double quote. -/
def pyReprQuote (s : String) : Char :=
  if s.data.contains '\'' && !(s.data.contains '"') then '"' else '\''

/-- Python's `repr` of a `str` value, as written by the unparser's
`_write_constant` for string constants. -/
def pyRepr (s : String) : String :=
  let q := pyReprQuote s
  String.mk (q :: (s.data.map (reprEscChar q)).flatten ++ [q])

/-- Whether the pattern occurs as a contiguous sublist (substring check on
character lists). -/
def hasSubstr (pat : List Char) : List Char → Bool
  | [] => pat.isEmpty
  | c :: rest => pat.isPrefixOf (c :: rest) || hasSubstr pat rest

/-- The escape used by `_str_literal_helper` when `escape_special_whitespace`
is false (the docstring case): newline and tab are kept verbatim, the
backslash and other non-printable ASCII characters are escaped. -/
def multiEscChar (c : Char) : List Char :=
  if c = '\n' || c = '\t' then [c]
  else if c = '\\' then ['\\', '\\']
  else if c = '\r' then ['\\', 'r']
  else if c.toNat < 32 || c.toNat == 127 then
    ['\\', 'x', hexDigitChar (c.toNat / 16), hexDigitChar (c.toNat % 16)]
  else [c]

/-- The triple-double-quote token. -/
def tripleDq : List Char := ['"', '"', '"']

/-- The triple-single-quote token. -/
def tripleSq : List Char := ['\'', '\'', '\'']

/-- The text written for a docstring by `_write_docstring`, i.e.
`_write_str_avoiding_backslashes` with the multi-quote types: escape the
content, pick the first multi-quote not occurring in it (preferring one
whose opening character differs from the content's final character,
escaping a colliding final quote), and fall back to `repr` wrapped in the
matching triple quote when both multi-quotes occur in the content. -/
def docstringTok (s : String) : String :=
  let esc := (s.data.map multiEscChar).flatten
  let cands := (if hasSubstr tripleDq esc then [] else [tripleDq])
      ++ (if hasSubstr tripleSq esc then [] else [tripleSq])
  match cands with
  | [] =>
    let r := pyRepr s
    let content := (r.data.drop 1).dropLast
    let quote := if pyReprQuote s = '\'' then tripleSq else tripleDq
    String.mk (quote ++ content ++ quote)
  | _ =>
    match esc.getLast? with
    | none => String.mk (cands.headI ++ cands.headI)
    | some lastC =>
      let sorted := cands.filter (fun q => !(q.headI = lastC))
          ++ cands.filter (fun q => q.headI = lastC)
      let chosen := sorted.headI
      let esc2 := if chosen.headI = lastC then esc.dropLast ++ ['\\', lastC] else esc
      String.mk (chosen ++ esc2 ++ chosen)

/-- A piece of regenerated source text: either a rendered string-like
literal token, or non-literal code text. -/
inductive Frag where
  | lit (s : String)
  | code (s : String)

/-- The text of a fragment. -/
def Frag.render : Frag → String
  | .lit s => s
  | .code s => s

/-- Whether a fragment is a string-like literal token. -/
def Frag.isLit : Frag → Bool
  | .lit _ => true
  | .code _ => false

/-- Four spaces per indentation level, as in the unparser's `fill`. -/
def indentStr (k : Nat) : String := String.mk (List.replicate (4 * k) ' ')

/-- Rendering of an expression, following the unparser's expression
visitors: string constants via `repr`, bytes via `repr` (a `b` prefix and
the same quoting), `None` verbatim, f-strings as an `f` prefix followed by
a string token, and `+` with single spaces.  (Precedence parentheses are
not modelled; no claim depends on them.) -/
def exprFrags : PyExpr → List Frag
  | .constant (.str s) => [.lit (pyRepr s)]
  | .constant (.bytes s) => [.lit ("b" ++ pyRepr s)]
  | .constant .noneC => [.code "None"]
  | .fstring s => [.lit ("f" ++ pyRepr s)]
  | .binop l r => exprFrags l ++ [.code " + "] ++ exprFrags r

/-- The two fragments written by `_write_docstring`: the `fill` prefix and
the multi-quoted docstring token. -/
def docstringFrags (k : Nat) (s : String) : List Frag :=
  [.code ("\n" ++ indentStr k), .lit (docstringTok s)]

mutual

/-- Fragments of one statement at indentation `k`.  Every statement starts
with its `fill` text (newline then indentation); class and function
definitions start with an extra newline from their leading
`maybe_newline`. -/
def stmtFrags (k : Nat) : Stmt → List Frag
  | .exprStmt e => .code ("\n" ++ indentStr k) :: exprFrags e
  | .assign x e => .code ("\n" ++ indentStr k ++ x ++ " = ") :: exprFrags e
  | .ret e => .code ("\n" ++ indentStr k ++ "return ") :: exprFrags e
  | .pass => [.code ("\n" ++ indentStr k ++ "pass")]
  | .functionDef n b =>
    .code ("\n\n" ++ indentStr k ++ "def " ++ n ++ "():") :: bodyFragsD (k + 1) b
  | .asyncFunctionDef n b =>
    .code ("\n\n" ++ indentStr k ++ "async def " ++ n ++ "():") :: bodyFragsD (k + 1) b
  | .classDef n b =>
    .code ("\n\n" ++ indentStr k ++ "class " ++ n ++ ":") :: bodyFragsD (k + 1) b
  | .ifStmt t b =>
    .code ("\n" ++ indentStr k ++ "if ") :: (exprFrags t ++ [.code ":"] ++ listFrags (k + 1) b)

/-- Fragments of a plain statement list (`traverse` on a list). -/
def listFrags (k : Nat) : List Stmt → List Frag
  | [] => []
  | s :: rest => stmtFrags k s ++ listFrags k rest

/-- Fragments of a module/class/function body:
`_write_docstring_and_traverse_body` writes a leading string-constant
expression statement as a docstring token and traverses the remaining
statements; otherwise it traverses the whole body. -/
def bodyFragsD (k : Nat) : List Stmt → List Frag
  | .exprStmt (.constant (.str s)) :: rest => docstringFrags k s ++ listFrags k rest
  | [] => []
  | s :: rest => stmtFrags k s ++ listFrags k rest

end

/-- Concatenated text of a fragment list. -/
def renderFrags : List Frag → String
  | [] => ""
  | f :: fs => f.render ++ renderFrags fs

/-- Removes the leading newlines that the per-statement `fill` prefixes
contribute before the first statement (where the real unparser's
`maybe_newline` writes nothing because no output exists yet). -/
def dropLeadingNewlines (s : String) : String :=
  String.mk (s.data.dropWhile (fun c => c = '\n'))

/-- Model of `ast.unparse` on a module of the embedded fragment. -/
def unparse (m : PyModule) : String :=
  dropLeadingNewlines (renderFrags (bodyFragsD 0 m.body))

/-!  The transformation entry point `strip_comments` (`__init__.py` lines
96-129).  `ast.parse` is passed in as a function from source text to either
a parse-error message or a module; `ast.fix_missing_locations` is a no-op
here because the embedded tree carries no location metadata. -/

/-- The whitespace characters stripped by `str.strip()` (ASCII range). -/
def pyIsSpace (c : Char) : Bool :=
  c = ' ' || c = '\t' || c = '\n' || c = '\r' || c = '\x0b' || c = '\x0c'

/-- Test `source.strip() == ""`: every character is whitespace. -/
def stripIsEmpty (source : String) : Bool :=
  source.data.all pyIsSpace

/-- Test `text.endswith("\n")`: the final character is a newline. -/
def endsWithNL (s : String) : Bool :=
  s.data.getLast? == some '\n'

/-- The trailing-newline normalization of `strip_comments` (lines 126-128):
append a newline only when the text does not already end with one. -/
def ensureTrailingNewline (t : String) : String :=
  if endsWithNL t then t else t ++ "\n"

/-- Failure modes of `strip_comments`: `ValueError` for empty or
whitespace-only input, and the `SyntaxError` propagated from `ast.parse`
(carrying the parser's message). -/
inductive StripError where
  | invalidInput
  | parseFailure (msg : String)
deriving DecidableEq, Repr

/-- Embedding of `strip_comments` (lines 113-129): reject empty/whitespace-only input,
parse, strip docstrings with the visitor, unparse, and normalize the
trailing newline.  (The `isinstance(source, str)` guard is outside the
model: the input is typed as a string.) -/
def strip_comments (parse : String → Except String PyModule) (source : String) :
    Except StripError String :=
  if stripIsEmpty source then .error .invalidInput
  else
    match parse source with
    | .error msg => .error (.parseFailure msg)
    | .ok tree => .ok (ensureTrailingNewline (unparse (visitModule tree)))

/-!  The CLI path dispatch `_process_paths` (`cli.py` lines 127-196).  The
filesystem side of `strip_path` is abstracted as a function from a path to
either an error or the ordered association list (path, stripped text) that
the Python `dict` holds; `strip_paths` aggregates those dictionaries with
`dict.update`.  The returned pair is (exit code, text written to stdout). -/

def EXIT_SUCCESS : Nat := 0
def EXIT_FAILURE : Nat := 1
def EXIT_USAGE : Nat := 2

/-- Errors of `strip_path` that `_process_paths` catches; each maps to
`EXIT_FAILURE`. -/
inductive PathError where
  | notFound
  | invalidValue
  | parseFailure
  | ioFailure
deriving DecidableEq, Repr

/-- Python `dict` insert-or-overwrite for one key. -/
def dictUpsert (d : List (String × String)) (key val : String) :
    List (String × String) :=
  if d.any (fun kv => kv.1 == key) then
    d.map (fun kv => if kv.1 == key then (key, val) else kv)
  else d ++ [(key, val)]

/-- Model of `aggregated.update(result_for_path)`: upsert every pair in order. -/
def dictUpdate (d : List (String × String)) : List (String × String) →
    List (String × String)
  | [] => d
  | (k, v) :: rest => dictUpdate (dictUpsert d k v) rest

/-- The aggregation loop of `strip_paths` (`__init__.py` lines 288-319):
process paths in order, merging each result into the accumulator; the
first error aborts the batch. -/
def stripPathsGo (stripPathFn : String → Except PathError (List (String × String)))
    (acc : List (String × String)) : List String →
    Except PathError (List (String × String))
  | [] => .ok acc
  | p :: rest =>
    match stripPathFn p with
    | .error e => .error e
    | .ok r => stripPathsGo stripPathFn (dictUpdate acc r) rest

/-- Embedding of `strip_paths` over the abstracted per-path processor. -/
def strip_paths_m (stripPathFn : String → Except PathError (List (String × String)))
    (paths : List String) : Except PathError (List (String × String)) :=
  stripPathsGo stripPathFn [] paths

/-- Embedding of `_process_paths` (`cli.py` lines 127-196): no paths is a usage error;
with `--inplace` all paths are processed and nothing is printed; without
`--inplace` only `paths[0]` is processed and its output goes to stdout
when it consists of exactly one file, else a usage error; every caught
exception maps to `EXIT_FAILURE`.  Returns (exit code, stdout text). -/
def process_paths (stripPathFn : String → Except PathError (List (String × String)))
    (paths : List String) (inplace : Bool) : Nat × String :=
  match paths with
  | [] => (EXIT_USAGE, "")
  | p0 :: _ =>
    if inplace then
      match strip_paths_m stripPathFn paths with
      | .ok _ => (EXIT_SUCCESS, "")
      | .error _ => (EXIT_FAILURE, "")
    else
      match stripPathFn p0 with
      | .error _ => (EXIT_FAILURE, "")
      | .ok results =>
        match results with
        | [(_, content)] => (EXIT_SUCCESS, content)
        | _ => (EXIT_USAGE, "")

/-!  The file enumeration helper `_iter_python_files` (`__init__.py` lines
207-232) over a model filesystem.  A filesystem node is a regular file or
a directory with an ordered child list (so `is_file`/`is_dir` always holds
of a node and the final `ValueError` branch is unreachable in the model).
`Path.suffix` takes the text from the final dot of the name, provided that
dot is neither the first nor the last character; `rglob("*.py")` matches a
name against the pattern `*.py` case-sensitively (POSIX `fnmatch` with `*`
matching any sequence), i.e. the name ends with `.py`. -/

inductive FSNode where
  | file (name : String)
  | dir (name : String) (children : List FSNode)

/-- The final path component of a node. -/
def FSNode.name : FSNode → String
  | .file n => n
  | .dir n _ => n

/-- Test `Path.is_file()` in the model. -/
def FSNode.isFile : FSNode → Bool
  | .file _ => true
  | .dir _ _ => false

mutual

/-- All proper descendants of a node, in depth-first order. -/
def fsDescendants : FSNode → List FSNode
  | .file _ => []
  | .dir _ cs => fsDescendantsList cs

/-- Children of a directory together with all their descendants. -/
def fsDescendantsList : List FSNode → List FSNode
  | [] => []
  | c :: cs => c :: (fsDescendants c ++ fsDescendantsList cs)

end

/-- Index of the last dot in a character list, if any. -/
def lastDotIdx : List Char → Option Nat
  | [] => none
  | c :: rest =>
    match lastDotIdx rest with
    | some i => some (i + 1)
    | none => if c = '.' then some 0 else none

/-- Model of `PurePath.suffix`: the substring from the last dot of the name when
that dot is at an index `i` with `0 < i < len(name) - 1`, else empty. -/
def pySuffix (n : String) : String :=
  match lastDotIdx n.data with
  | none => ""
  | some i =>
    if 0 < i ∧ i < n.data.length - 1 then String.mk (n.data.drop i) else ""

/-- Model of `str.lower()` for the ASCII range (sufficient for the `.py`
suffix comparison). -/
def pyLowerChar (c : Char) : Char :=
  if 'A' ≤ c ∧ c ≤ 'Z' then Char.ofNat (c.toNat + 32) else c

/-- Model of `str.lower()` on a string. -/
def pyLower (s : String) : String := String.mk (s.data.map pyLowerChar)

/-- Suffix test on character lists. -/
def strEndsWith (s suffix : String) : Bool := suffix.data.isSuffixOf s.data

/-- Model of `fnmatch` of a name against the case-sensitive pattern `*.py`
(`*` matches any sequence, the remainder is literal): the name ends with
`.py`. -/
def starPyGlobMatch (n : String) : Bool := strEndsWith n ".py"

/-- Embedding of `_iter_python_files`: a file target is selected when its suffix
lower-cases to `.py`; a directory enumerates immediate children under the
same case-insensitive suffix test when non-recursive, and `rglob("*.py")`
restricted to regular files when recursive. -/
def iter_python_files (root : FSNode) (recursive : Bool) : List FSNode :=
  match root with
  | .file n => if pyLower (pySuffix n) = ".py" then [root] else []
  | .dir _ cs =>
    if recursive then
      (fsDescendantsList cs).filter (fun p => p.isFile && starPyGlobMatch p.name)
    else
      cs.filter (fun p => p.isFile && pyLower (pySuffix p.name) = ".py")

/-!  Concrete instantiation material.  `parseFix` is a finite lookup parser:
on each string below it returns exactly the tree that CPython's `ast.parse`
produces for that string (comments are not part of the tree), and it fails
with the parser's standard message on everything else.  It instantiates the
abstract `parse` parameter in concrete evaluations. -/

/-- Module consisting of a single docstring, body of the lookup for
a docstring-plus-comment source. -/
def modDocOnly : PyModule := ⟨[.exprStmt (.constant (.str "Mod"))]⟩

/-- Module of the source `def f():⏎    "doc"⏎`. -/
def modFnDocOnly : PyModule :=
  ⟨[.functionDef "f" [.exprStmt (.constant (.str "doc"))]]⟩

/-- Module of the source `def g():⏎    return "# not a comment"⏎`. -/
def modHashString : PyModule :=
  ⟨[.functionDef "g" [.ret (.constant (.str "# not a comment"))]]⟩

/-- Module of the source `"a"⏎"b"⏎`: two bare string-literal expression
statements. -/
def modTwoStrings : PyModule :=
  ⟨[.exprStmt (.constant (.str "a")), .exprStmt (.constant (.str "b"))]⟩

/-- Module of the source `"""b"""⏎`. -/
def modOneString : PyModule := ⟨[.exprStmt (.constant (.str "b"))]⟩

/-- Module of the source `x = None⏎`. -/
def modAssignNone : PyModule := ⟨[.assign "x" (.constant .noneC)]⟩

/-- Finite lookup parser agreeing with `ast.parse` on the listed sources. -/
def parseFix : String → Except String PyModule := fun src =>
  if src = "x = None\n" then .ok modAssignNone
  else if src = "def f():\n    \"doc\"\n" then .ok modFnDocOnly
  else if src = "def g():\n    return \"# not a comment\"\n" then .ok modHashString
  else if src = "\"a\"\n\"b\"\n" then .ok modTwoStrings
  else if src = "\"\"\"b\"\"\"\n" then .ok modOneString
  else if src = "\"\"\"Mod\"\"\"\n# c\n" then .ok modDocOnly
  else .error "invalid syntax"

/-- Lookup per-path processor standing in for `strip_path`: two paths that
each resolve to a single transformed file. -/
def stripPathFix : String → Except PathError (List (String × String)) := fun p =>
  if p = "a.py" then .ok [("a.py", "x = 1\n")]
  else if p = "b.py" then .ok [("b.py", "y = 2\n")]
  else if p = "empty_dir" then .ok []
  else .error .notFound

/-!  Well-formedness predicates used as hypotheses. -/

/-- The string contains no `#` (true of every Python identifier). -/
def strNoHash (s : String) : Bool := !(s.data.contains '#')

mutual

/-- Every definition name and assignment target in the statement is free of
`#`, recursively. -/
def stmtNoHashNames : Stmt → Bool
  | .exprStmt _ => true
  | .assign x _ => strNoHash x
  | .ret _ => true
  | .pass => true
  | .functionDef n b => strNoHash n && bodyNoHashNames b
  | .asyncFunctionDef n b => strNoHash n && bodyNoHashNames b
  | .classDef n b => strNoHash n && bodyNoHashNames b
  | .ifStmt _ b => bodyNoHashNames b

/-- Conjunction of `stmtNoHashNames` over a statement list. -/
def bodyNoHashNames : List Stmt → Bool
  | [] => true
  | s :: rest => stmtNoHashNames s && bodyNoHashNames rest

end

/-- Conjunction of `stmtNoHashNames` over a module. -/
def moduleNoHashNames (m : PyModule) : Bool := bodyNoHashNames m.body

/-- The first two statements of the list are not both bare string-literal
expression statements (so that removing a leading docstring cannot expose
a second one). -/
def leadingPairOk : List Stmt → Bool
  | s0 :: s1 :: _ => !(isDocstringStmt s0 && isDocstringStmt s1)
  | _ => true

mutual

/-- No module/class/function body anywhere in the statement starts with two
consecutive bare string-literal expression statements. -/
def noConsecDocStmt : Stmt → Bool
  | .functionDef _ b => leadingPairOk b && noConsecDocList b
  | .asyncFunctionDef _ b => leadingPairOk b && noConsecDocList b
  | .classDef _ b => leadingPairOk b && noConsecDocList b
  | .ifStmt _ b => noConsecDocList b
  | _ => true

/-- Conjunction of `noConsecDocStmt` over a statement list. -/
def noConsecDocList : List Stmt → Bool
  | [] => true
  | s :: rest => noConsecDocStmt s && noConsecDocList rest

end

/-- Conjunction of `noConsecDocStmt` over a module, including its own leading pair. -/
def noConsecDocModule (m : PyModule) : Bool :=
  leadingPairOk m.body && noConsecDocList m.body

/-!  Basic lemmas. -/

theorem visitStrippedBody_eq (b : List Stmt) :
    visitStrippedBody b = visitBody (stripDocstringFromBody b) := by
  rcases b with _ | ⟨f, rest⟩
  · rfl
  rcases f with e | ⟨x, e⟩ | e | _ | ⟨n, bd⟩ | ⟨n, bd⟩ | ⟨n, bd⟩ | ⟨t, bd⟩ <;>
    first
    | rfl
    | (rcases e with c | s | ⟨l, r⟩ <;> first | rfl | (rcases c with s | s | _ <;> rfl))

theorem visitStmt_functionDef (n : String) (b : List Stmt) :
    visitStmt (.functionDef n b) = .functionDef n (visitBody (stripDocstringFromBody b)) := by
  rw [visitStmt, visitStrippedBody_eq]

theorem visitStmt_asyncFunctionDef (n : String) (b : List Stmt) :
    visitStmt (.asyncFunctionDef n b)
      = .asyncFunctionDef n (visitBody (stripDocstringFromBody b)) := by
  rw [visitStmt, visitStrippedBody_eq]

theorem visitStmt_classDef (n : String) (b : List Stmt) :
    visitStmt (.classDef n b) = .classDef n (visitBody (stripDocstringFromBody b)) := by
  rw [visitStmt, visitStrippedBody_eq]

theorem visitBody_eq_map (b : List Stmt) : visitBody b = b.map visitStmt := by
  induction b with
  | nil => rfl
  | cons s rest ih => rw [visitBody, ih, List.map_cons]

theorem isDocstringStmt_visitStmt (s : Stmt) :
    isDocstringStmt (visitStmt s) = isDocstringStmt s := by
  rcases s with e | ⟨x, e⟩ | e | _ | ⟨n, bd⟩ | ⟨n, bd⟩ | ⟨n, bd⟩ | ⟨t, bd⟩ <;> rfl

theorem stripDocstringFromBody_of_doc (s : String) (rest : List Stmt) :
    stripDocstringFromBody (.exprStmt (.constant (.str s)) :: rest) = rest := rfl

theorem stripDocstringFromBody_of_not_doc (f : Stmt) (rest : List Stmt)
    (h : isDocstringStmt f = false) :
    stripDocstringFromBody (f :: rest) = f :: rest := by
  rcases f with e | ⟨x, e⟩ | e | _ | ⟨n, bd⟩ | ⟨n, bd⟩ | ⟨n, bd⟩ | ⟨t, bd⟩ <;>
    first
    | rfl
    | (rcases e with c | s | ⟨l, r⟩ <;>
        first
        | rfl
        | (rcases c with s | s | _ <;> first | rfl | simp [isDocstringStmt] at h))

theorem mem_data_of_getLast? {l : List Char} {c : Char} (h : l.getLast? = some c) :
    c ∈ l := by
  induction l with
  | nil => simp at h
  | cons a rest ih =>
    rcases rest with _ | ⟨b, r⟩
    · simp at h; simp [h]
    · rw [List.getLast?_cons_cons] at h
      exact List.mem_cons_of_mem a (ih h)

theorem getLast?_dropWhile_newline {l : List Char} {c : Char}
    (h : l.getLast? = some c) (hc : c ≠ '\n') :
    (l.dropWhile (fun x => x = '\n')).getLast? = some c := by
  induction l with
  | nil => simp at h
  | cons a rest ih =>
    by_cases ha : a = '\n'
    · subst ha
      rcases rest with _ | ⟨b, r⟩
      · simp at h; exact absurd h.symm hc
      · rw [List.getLast?_cons_cons] at h
        rw [List.dropWhile_cons_of_pos (by simp)]
        exact ih h
    · rw [List.dropWhile_cons_of_neg (by simpa using ha)]
      exact h

/-!  Lemmas locating characters of the regenerated text inside fragments. -/

theorem mem_renderFrags {c : Char} {fs : List Frag} (h : c ∈ (renderFrags fs).data) :
    ∃ f ∈ fs, c ∈ (Frag.render f).data := by
  induction fs with
  | nil => simp [renderFrags] at h
  | cons f rest ih =>
    rw [renderFrags, String.data_append] at h
    rcases List.mem_append.1 h with h1 | h2
    · exact ⟨f, List.mem_cons_self f rest, h1⟩
    · obtain ⟨g, hg, hcg⟩ := ih h2
      exact ⟨g, List.mem_cons_of_mem f hg, hcg⟩

theorem not_mem_indentStr (c : Char) (hc : c ≠ ' ') (k : Nat) :
    c ∉ (indentStr k).data := by
  intro h
  rw [indentStr] at h
  rcases List.eq_of_mem_replicate h with rfl
  exact hc rfl

theorem not_mem_append {c : Char} {a b : String} (ha : c ∉ a.data) (hb : c ∉ b.data) :
    c ∉ (a ++ b).data := by
  rw [String.data_append]
  intro h
  rcases List.mem_append.1 h with h1 | h2
  · exact ha h1
  · exact hb h2

theorem exprFragsNoHash (e : PyExpr) :
    ∀ f ∈ exprFrags e, f.isLit = false → '#' ∉ (Frag.render f).data := by
  induction e with
  | constant c =>
    rcases c with s | s | _ <;> intro f hf hlit <;> simp [exprFrags] at hf <;>
      subst hf <;> simp [Frag.isLit] at hlit ⊢ <;> simp [Frag.render]
  | fstring s =>
    intro f hf hlit
    simp [exprFrags] at hf
    subst hf
    simp [Frag.isLit] at hlit
  | binop l r ihl ihr =>
    intro f hf hlit
    rw [exprFrags] at hf
    rcases List.mem_append.1 hf with h1 | h2
    · rcases List.mem_append.1 h1 with h3 | h4
      · exact ihl f h3 hlit
      · simp at h4
        subst h4
        simp [Frag.render]
    · exact ihr f h2 hlit


theorem strNoHash_not_mem {n : String} (h : strNoHash n = true) : '#' ∉ n.data := by
  rw [strNoHash] at h
  simp only [Bool.not_eq_eq_eq_not, Bool.not_true] at h
  simpa using h

mutual

theorem stmtFragsNoHash (k : Nat) (s : Stmt) (h : stmtNoHashNames s = true) :
    ∀ f ∈ stmtFrags k s, f.isLit = false → '#' ∉ (Frag.render f).data := by
  intro f hf hlit
  have hind : ('#' : Char) ∉ (indentStr k).data := not_mem_indentStr _ (by decide) k
  cases s with
  | exprStmt e =>
    rcases List.mem_cons.1 hf with rfl | hf
    · exact not_mem_append (by decide) hind
    · exact exprFragsNoHash e f hf hlit
  | assign x e =>
    rw [stmtNoHashNames] at h
    rcases List.mem_cons.1 hf with rfl | hf
    · exact not_mem_append
        (not_mem_append (not_mem_append (by decide) hind) (strNoHash_not_mem h)) (by decide)
    · exact exprFragsNoHash e f hf hlit
  | ret e =>
    rcases List.mem_cons.1 hf with rfl | hf
    · exact not_mem_append (not_mem_append (by decide) hind) (by decide)
    · exact exprFragsNoHash e f hf hlit
  | pass =>
    rcases List.mem_cons.1 hf with rfl | hf
    · exact not_mem_append (not_mem_append (by decide) hind) (by decide)
    · simp at hf
  | functionDef n b =>
    rw [stmtNoHashNames, Bool.and_eq_true] at h
    rcases List.mem_cons.1 hf with rfl | hf
    · exact not_mem_append
        (not_mem_append (not_mem_append (not_mem_append (by decide) hind)
          (by decide)) (strNoHash_not_mem h.1)) (by decide)
    · exact bodyFragsDNoHash (k + 1) b h.2 f hf hlit
  | asyncFunctionDef n b =>
    rw [stmtNoHashNames, Bool.and_eq_true] at h
    rcases List.mem_cons.1 hf with rfl | hf
    · exact not_mem_append
        (not_mem_append (not_mem_append (not_mem_append (by decide) hind)
          (by decide)) (strNoHash_not_mem h.1)) (by decide)
    · exact bodyFragsDNoHash (k + 1) b h.2 f hf hlit
  | classDef n b =>
    rw [stmtNoHashNames, Bool.and_eq_true] at h
    rcases List.mem_cons.1 hf with rfl | hf
    · exact not_mem_append
        (not_mem_append (not_mem_append (not_mem_append (by decide) hind)
          (by decide)) (strNoHash_not_mem h.1)) (by decide)
    · exact bodyFragsDNoHash (k + 1) b h.2 f hf hlit
  | ifStmt t b =>
    rw [stmtNoHashNames] at h
    rcases List.mem_cons.1 hf with rfl | hf
    · exact not_mem_append (not_mem_append (by decide) hind) (by decide)
    · rcases List.mem_append.1 hf with h1 | h2
      · rcases List.mem_append.1 h1 with h3 | h4
        · exact exprFragsNoHash t f h3 hlit
        · rw [List.mem_singleton] at h4
          subst h4
          simp [Frag.render]
      · exact listFragsNoHash (k + 1) b h f h2 hlit

theorem listFragsNoHash (k : Nat) (b : List Stmt) (h : bodyNoHashNames b = true) :
    ∀ f ∈ listFrags k b, f.isLit = false → '#' ∉ (Frag.render f).data := by
  intro f hf hlit
  cases b with
  | nil => simp [listFrags] at hf
  | cons s rest =>
    rw [bodyNoHashNames, Bool.and_eq_true] at h
    rw [listFrags] at hf
    rcases List.mem_append.1 hf with h1 | h2
    · exact stmtFragsNoHash k s h.1 f h1 hlit
    · exact listFragsNoHash k rest h.2 f h2 hlit

theorem bodyFragsDNoHash (k : Nat) (b : List Stmt) (h : bodyNoHashNames b = true) :
    ∀ f ∈ bodyFragsD k b, f.isLit = false → '#' ∉ (Frag.render f).data := by
  intro f hf hlit
  match b, h, hf with
  | [], _, hf2 => simp [bodyFragsD] at hf2
  | .exprStmt (.constant (.str s)) :: rest, h2, hf2 =>
    rw [bodyFragsD] at hf2
    rcases List.mem_append.1 hf2 with h1 | hrest
    · simp only [docstringFrags, List.mem_cons, List.mem_singleton,
        List.not_mem_nil, or_false] at h1
      rcases h1 with rfl | rfl
      · exact not_mem_append (by decide) (not_mem_indentStr _ (by decide) k)
      · simp [Frag.isLit] at hlit
    · rw [bodyNoHashNames, Bool.and_eq_true] at h2
      exact listFragsNoHash k rest h2.2 f hrest hlit
  | .exprStmt (.constant (.bytes s)) :: rest, h2, hf2 =>
    exact listFragsNoHash k (.exprStmt (.constant (.bytes s)) :: rest) h2 f hf2 hlit
  | .exprStmt (.constant .noneC) :: rest, h2, hf2 =>
    exact listFragsNoHash k (.exprStmt (.constant .noneC) :: rest) h2 f hf2 hlit
  | .exprStmt (.fstring s) :: rest, h2, hf2 =>
    exact listFragsNoHash k (.exprStmt (.fstring s) :: rest) h2 f hf2 hlit
  | .exprStmt (.binop l r) :: rest, h2, hf2 =>
    exact listFragsNoHash k (.exprStmt (.binop l r) :: rest) h2 f hf2 hlit
  | .assign x e :: rest, h2, hf2 =>
    exact listFragsNoHash k (.assign x e :: rest) h2 f hf2 hlit
  | .ret e :: rest, h2, hf2 =>
    exact listFragsNoHash k (.ret e :: rest) h2 f hf2 hlit
  | .pass :: rest, h2, hf2 =>
    exact listFragsNoHash k (.pass :: rest) h2 f hf2 hlit
  | .functionDef n bd :: rest, h2, hf2 =>
    exact listFragsNoHash k (.functionDef n bd :: rest) h2 f hf2 hlit
  | .asyncFunctionDef n bd :: rest, h2, hf2 =>
    exact listFragsNoHash k (.asyncFunctionDef n bd :: rest) h2 f hf2 hlit
  | .classDef n bd :: rest, h2, hf2 =>
    exact listFragsNoHash k (.classDef n bd :: rest) h2 f hf2 hlit
  | .ifStmt t bd :: rest, h2, hf2 =>
    exact listFragsNoHash k (.ifStmt t bd :: rest) h2 f hf2 hlit

end

/-!  Lemmas about the final character of regenerated text: it is never
whitespace, hence in particular never a newline. -/

theorem getLast?_append_right {α : Type} {l r : List α} {x : α} (h : r.getLast? = some x) :
    (l ++ r).getLast? = some x := by
  rw [List.getLast?_append, h]
  rfl

theorem code_render_getLast {x y : String} {c : Char} (h : y.data.getLast? = some c) :
    (Frag.render (Frag.code (x ++ y))).data.getLast? = some c := by
  rw [Frag.render, String.data_append]
  exact getLast?_append_right h

theorem pyRepr_getLast (s : String) :
    ∃ c, (pyRepr s).data.getLast? = some c ∧ pyIsSpace c = false := by
  refine ⟨pyReprQuote s, ?_, ?_⟩
  · show (pyReprQuote s :: ((s.data.map (reprEscChar (pyReprQuote s))).flatten
      ++ [pyReprQuote s])).getLast? = _
    rw [← List.cons_append, List.getLast?_concat]
  · rw [pyReprQuote]
    split <;> decide

theorem getLast?_mk_wrap (chosen mid : List Char)
    (hch : chosen = tripleDq ∨ chosen = tripleSq) :
    ∃ c, (String.mk (chosen ++ mid ++ chosen)).data.getLast? = some c ∧
      pyIsSpace c = false := by
  rcases hch with rfl | rfl
  · exact ⟨'"', getLast?_append_right (by decide), by decide⟩
  · exact ⟨'\'', getLast?_append_right (by decide), by decide⟩

theorem sorted_headI_single (q1 : List Char) (lastC : Char) :
    (([q1].filter (fun q => !(q.headI = lastC))
      ++ [q1].filter (fun q => q.headI = lastC)).headI) = q1 := by
  by_cases h : q1.headI = lastC <;> simp [List.filter_cons, h]

theorem sorted_headI_pair (lastC : Char) :
    (([tripleDq, tripleSq].filter (fun q => !(q.headI = lastC))
      ++ [tripleDq, tripleSq].filter (fun q => q.headI = lastC)).headI) = tripleDq ∨
    (([tripleDq, tripleSq].filter (fun q => !(q.headI = lastC))
      ++ [tripleDq, tripleSq].filter (fun q => q.headI = lastC)).headI) = tripleSq := by
  by_cases h1 : tripleDq.headI = lastC <;> by_cases h2 : tripleSq.headI = lastC <;>
    simp [List.filter_cons, h1, h2]

theorem docstringTok_getLast (s : String) :
    ∃ c, (docstringTok s).data.getLast? = some c ∧ pyIsSpace c = false := by
  by_cases hdq : hasSubstr tripleDq ((s.data.map multiEscChar).flatten) <;>
    by_cases hsq : hasSubstr tripleSq ((s.data.map multiEscChar).flatten) <;>
    simp only [docstringTok, hdq, hsq, if_true, if_false]
  · by_cases hq : pyReprQuote s = '\'' <;> simp only [hq, if_true, if_false]
    · exact ⟨'\'', getLast?_append_right (by decide), by decide⟩
    · exact ⟨'"', getLast?_append_right (by decide), by decide⟩
  · rcases hel : ((s.data.map multiEscChar).flatten).getLast? with _ | lastC <;>
      simp only [hel]
    · exact ⟨'\'', getLast?_append_right (by decide), by decide⟩
    · exact getLast?_mk_wrap _ _ (Or.inr (sorted_headI_single tripleSq lastC))
  · rcases hel : ((s.data.map multiEscChar).flatten).getLast? with _ | lastC <;>
      simp only [hel]
    · exact ⟨'"', getLast?_append_right (by decide), by decide⟩
    · exact getLast?_mk_wrap _ _ (Or.inl (sorted_headI_single tripleDq lastC))
  · rcases hel : ((s.data.map multiEscChar).flatten).getLast? with _ | lastC <;>
      simp only [hel]
    · exact ⟨'"', getLast?_append_right (by decide), by decide⟩
    · exact getLast?_mk_wrap _ _ (sorted_headI_pair lastC)

theorem exprFrags_goodLast (e : PyExpr) :
    ∃ f, (exprFrags e).getLast? = some f ∧
      ∃ c, (Frag.render f).data.getLast? = some c ∧ pyIsSpace c = false := by
  induction e with
  | constant cst =>
    rcases cst with s | s | _
    · obtain ⟨c, hc, hsp⟩ := pyRepr_getLast s
      exact ⟨.lit (pyRepr s), rfl, c, hc, hsp⟩
    · obtain ⟨c, hc, hsp⟩ := pyRepr_getLast s
      refine ⟨.lit ("b" ++ pyRepr s), rfl, c, ?_, hsp⟩
      rw [Frag.render, String.data_append]
      exact getLast?_append_right hc
    · exact ⟨.code "None", rfl, 'e', by decide, by decide⟩
  | fstring s =>
    obtain ⟨c, hc, hsp⟩ := pyRepr_getLast s
    refine ⟨.lit ("f" ++ pyRepr s), rfl, c, ?_, hsp⟩
    rw [Frag.render, String.data_append]
    exact getLast?_append_right hc
  | binop l r ihl ihr =>
    obtain ⟨f, hf, c, hc, hsp⟩ := ihr
    refine ⟨f, ?_, c, hc, hsp⟩
    rw [exprFrags]
    exact getLast?_append_right hf

mutual

theorem stmtFrags_goodLast (k : Nat) (s : Stmt) :
    ∃ f, (stmtFrags k s).getLast? = some f ∧
      ∃ c, (Frag.render f).data.getLast? = some c ∧ pyIsSpace c = false := by
  cases s with
  | exprStmt e =>
    obtain ⟨f, hf, hc⟩ := exprFrags_goodLast e
    refine ⟨f, ?_, hc⟩
    rw [stmtFrags, ← List.singleton_append]
    exact getLast?_append_right hf
  | assign x e =>
    obtain ⟨f, hf, hc⟩ := exprFrags_goodLast e
    refine ⟨f, ?_, hc⟩
    rw [stmtFrags, ← List.singleton_append]
    exact getLast?_append_right hf
  | ret e =>
    obtain ⟨f, hf, hc⟩ := exprFrags_goodLast e
    refine ⟨f, ?_, hc⟩
    rw [stmtFrags, ← List.singleton_append]
    exact getLast?_append_right hf
  | pass =>
    exact ⟨.code ("\n" ++ indentStr k ++ "pass"), rfl, 's',
      code_render_getLast (by decide), by decide⟩
  | functionDef n b =>
    cases b with
    | nil =>
      exact ⟨.code ("\n\n" ++ indentStr k ++ "def " ++ n ++ "():"), rfl, ':',
        code_render_getLast (by decide), by decide⟩
    | cons s0 rest =>
      obtain ⟨f, hf, hc⟩ := bodyFragsD_goodLast (k + 1) s0 rest
      refine ⟨f, ?_, hc⟩
      rw [stmtFrags, ← List.singleton_append]
      exact getLast?_append_right hf
  | asyncFunctionDef n b =>
    cases b with
    | nil =>
      exact ⟨.code ("\n\n" ++ indentStr k ++ "async def " ++ n ++ "():"), rfl, ':',
        code_render_getLast (by decide), by decide⟩
    | cons s0 rest =>
      obtain ⟨f, hf, hc⟩ := bodyFragsD_goodLast (k + 1) s0 rest
      refine ⟨f, ?_, hc⟩
      rw [stmtFrags, ← List.singleton_append]
      exact getLast?_append_right hf
  | classDef n b =>
    cases b with
    | nil =>
      exact ⟨.code ("\n\n" ++ indentStr k ++ "class " ++ n ++ ":"), rfl, ':',
        code_render_getLast (by decide), by decide⟩
    | cons s0 rest =>
      obtain ⟨f, hf, hc⟩ := bodyFragsD_goodLast (k + 1) s0 rest
      refine ⟨f, ?_, hc⟩
      rw [stmtFrags, ← List.singleton_append]
      exact getLast?_append_right hf
  | ifStmt t b =>
    cases b with
    | nil =>
      refine ⟨.code ":", ?_, ':', by decide, by decide⟩
      rw [stmtFrags, ← List.singleton_append, listFrags]
      rw [List.append_nil]
      exact getLast?_append_right (List.getLast?_concat _)
    | cons s0 rest =>
      obtain ⟨f, hf, hc⟩ := listFrags_goodLast (k + 1) s0 rest
      refine ⟨f, ?_, hc⟩
      rw [stmtFrags, ← List.singleton_append]
      rw [← List.append_assoc]
      exact getLast?_append_right hf
termination_by sizeOf s

theorem listFrags_goodLast (k : Nat) (s0 : Stmt) (rest : List Stmt) :
    ∃ f, (listFrags k (s0 :: rest)).getLast? = some f ∧
      ∃ c, (Frag.render f).data.getLast? = some c ∧ pyIsSpace c = false := by
  cases rest with
  | nil =>
    obtain ⟨f, hf, hc⟩ := stmtFrags_goodLast k s0
    refine ⟨f, ?_, hc⟩
    rw [listFrags, listFrags, List.append_nil]
    exact hf
  | cons s1 r2 =>
    obtain ⟨f, hf, hc⟩ := listFrags_goodLast k s1 r2
    refine ⟨f, ?_, hc⟩
    rw [listFrags]
    exact getLast?_append_right hf
termination_by sizeOf s0 + sizeOf rest

theorem bodyFragsD_goodLast (k : Nat) (s0 : Stmt) (rest : List Stmt) :
    ∃ f, (bodyFragsD k (s0 :: rest)).getLast? = some f ∧
      ∃ c, (Frag.render f).data.getLast? = some c ∧ pyIsSpace c = false := by
  match s0, rest with
  | .exprStmt (.constant (.str s)), [] =>
    obtain ⟨c, hc, hsp⟩ := docstringTok_getLast s
    refine ⟨.lit (docstringTok s), ?_, c, hc, hsp⟩
    rw [bodyFragsD, listFrags, List.append_nil, docstringFrags]
    rfl
  | .exprStmt (.constant (.str s)), s1 :: r2 =>
    obtain ⟨f, hf, hc⟩ := listFrags_goodLast k s1 r2
    refine ⟨f, ?_, hc⟩
    rw [bodyFragsD]
    exact getLast?_append_right hf
  | .exprStmt (.constant (.bytes s)), rest =>
    obtain ⟨f, hf, hc⟩ := listFrags_goodLast k (.exprStmt (.constant (.bytes s))) rest
    exact ⟨f, hf, hc⟩
  | .exprStmt (.constant .noneC), rest =>
    obtain ⟨f, hf, hc⟩ := listFrags_goodLast k (.exprStmt (.constant .noneC)) rest
    exact ⟨f, hf, hc⟩
  | .exprStmt (.fstring s), rest =>
    obtain ⟨f, hf, hc⟩ := listFrags_goodLast k (.exprStmt (.fstring s)) rest
    exact ⟨f, hf, hc⟩
  | .exprStmt (.binop l r), rest =>
    obtain ⟨f, hf, hc⟩ := listFrags_goodLast k (.exprStmt (.binop l r)) rest
    exact ⟨f, hf, hc⟩
  | .assign x e, rest =>
    obtain ⟨f, hf, hc⟩ := listFrags_goodLast k (.assign x e) rest
    exact ⟨f, hf, hc⟩
  | .ret e, rest =>
    obtain ⟨f, hf, hc⟩ := listFrags_goodLast k (.ret e) rest
    exact ⟨f, hf, hc⟩
  | .pass, rest =>
    obtain ⟨f, hf, hc⟩ := listFrags_goodLast k .pass rest
    exact ⟨f, hf, hc⟩
  | .functionDef n bd, rest =>
    obtain ⟨f, hf, hc⟩ := listFrags_goodLast k (.functionDef n bd) rest
    exact ⟨f, hf, hc⟩
  | .asyncFunctionDef n bd, rest =>
    obtain ⟨f, hf, hc⟩ := listFrags_goodLast k (.asyncFunctionDef n bd) rest
    exact ⟨f, hf, hc⟩
  | .classDef n bd, rest =>
    obtain ⟨f, hf, hc⟩ := listFrags_goodLast k (.classDef n bd) rest
    exact ⟨f, hf, hc⟩
  | .ifStmt t bd, rest =>
    obtain ⟨f, hf, hc⟩ := listFrags_goodLast k (.ifStmt t bd) rest
    exact ⟨f, hf, hc⟩
termination_by sizeOf s0 + sizeOf rest + 1

end

theorem renderFrags_getLast {fs : List Frag} {f : Frag} {c : Char}
    (hf : fs.getLast? = some f) (hc : (Frag.render f).data.getLast? = some c) :
    (renderFrags fs).data.getLast? = some c := by
  induction fs with
  | nil => simp at hf
  | cons g rest ih =>
    cases rest with
    | nil =>
      simp at hf
      subst hf
      rw [renderFrags, renderFrags, String.data_append]
      simpa using hc
    | cons g2 r2 =>
      rw [List.getLast?_cons_cons] at hf
      rw [renderFrags, String.data_append]
      exact getLast?_append_right (ih hf)

theorem unparse_getLast {m : PyModule} (hne : m.body ≠ []) :
    ∃ c, (unparse m).data.getLast? = some c ∧ pyIsSpace c = false := by
  rcases hb : m.body with _ | ⟨s0, rest⟩
  · exact absurd hb hne
  obtain ⟨f, hf, c, hc, hsp⟩ := bodyFragsD_goodLast 0 s0 rest
  refine ⟨c, ?_, hsp⟩
  rw [unparse, hb, dropLeadingNewlines]
  exact getLast?_dropWhile_newline (renderFrags_getLast hf hc)
    (by intro hceq; subst hceq; exact absurd hsp (by decide))

theorem strip_comments_ok_shape {parse : String → Except String PyModule}
    {x out : String} (h : strip_comments parse x = .ok out) :
    ∃ t, parse x = .ok t ∧ out = ensureTrailingNewline (unparse (visitModule t)) := by
  rw [strip_comments] at h
  by_cases he : stripIsEmpty x
  · rw [if_pos he] at h
    cases h
  · rw [if_neg he] at h
    rcases hp : parse x with msg | t
    · rw [hp] at h
      cases h
    · rw [hp] at h
      cases h
      exact ⟨t, rfl, rfl⟩

theorem ensureTrailingNewline_shape (u : String) :
    (u.data.getLast? = none ∨ ∃ c, u.data.getLast? = some c ∧ c ≠ '\n') →
    ∃ l, (ensureTrailingNewline u).data = l ++ ['\n'] ∧ l.getLast? ≠ some '\n' := by
  intro h
  have hne : endsWithNL u = false := by
    rw [endsWithNL]
    rcases h with h | ⟨c, hc, hcn⟩
    · rw [h]
      rfl
    · rw [hc]
      simpa using hcn
  rw [ensureTrailingNewline, hne]
  refine ⟨u.data, ?_, ?_⟩
  · show (u ++ "\n").data = u.data ++ ['\n']
    rw [String.data_append]
  · rcases h with h | ⟨c, hc, hcn⟩
    · rw [h]
      simp
    · rw [hc]
      simpa using hcn

theorem stripIsEmpty_false_of_mem {out : String} {c : Char}
    (hc : c ∈ out.data) (h : pyIsSpace c = false) : stripIsEmpty out = false := by
  rw [stripIsEmpty]
  by_contra hall
  rw [Bool.not_eq_false, List.all_eq_true] at hall
  have := hall c hc
  rw [h] at this
  cases this

theorem mem_dropWhile_newline {l : List Char} {c : Char} (hc : c ∈ l) (hcn : c ≠ '\n') :
    c ∈ l.dropWhile (fun x => x = '\n') := by
  induction l with
  | nil => simp at hc
  | cons a rest ih =>
    by_cases ha : a = '\n'
    · subst ha
      rw [List.dropWhile_cons_of_pos (by simp)]
      rcases List.mem_cons.1 hc with rfl | hc2
      · exact absurd rfl hcn
      · exact ih hc2
    · rw [List.dropWhile_cons_of_neg (by simpa using ha)]
      exact hc

/-!  Idempotence of the visitor on trees in which no body starts with two
consecutive bare string literals. -/

theorem visitStrippedBody_of_not_doc (s : Stmt) (rest : List Stmt)
    (h : isDocstringStmt s = false) :
    visitStrippedBody (s :: rest) = visitStmt s :: visitBody rest := by
  rcases s with e | ⟨x, e⟩ | e | _ | ⟨n, bd⟩ | ⟨n, bd⟩ | ⟨n, bd⟩ | ⟨t, bd⟩ <;>
    first
    | rfl
    | (rcases e with c | s | ⟨l, r⟩ <;>
        first
        | rfl
        | (rcases c with s | s | _ <;> first | rfl | simp [isDocstringStmt] at h))

theorem isDocstringStmt_true : ∀ {s : Stmt}, isDocstringStmt s = true →
    ∃ sx, s = .exprStmt (.constant (.str sx))
  | .exprStmt (.constant (.str sx)), _ => ⟨sx, rfl⟩
  | .exprStmt (.constant (.bytes _)), h => nomatch h
  | .exprStmt (.constant .noneC), h => nomatch h
  | .exprStmt (.fstring _), h => nomatch h
  | .exprStmt (.binop _ _), h => nomatch h
  | .assign _ _, h => nomatch h
  | .ret _, h => nomatch h
  | .pass, h => nomatch h
  | .functionDef _ _, h => nomatch h
  | .asyncFunctionDef _ _, h => nomatch h
  | .classDef _ _, h => nomatch h
  | .ifStmt _ _, h => nomatch h

mutual

theorem visitStmt_idem (s : Stmt) (h : noConsecDocStmt s = true) :
    visitStmt (visitStmt s) = visitStmt s := by
  cases s with
  | exprStmt e => rfl
  | assign x e => rfl
  | ret e => rfl
  | pass => rfl
  | functionDef n b =>
    rw [noConsecDocStmt, Bool.and_eq_true] at h
    rw [visitStmt, visitStmt, visitStrippedBody_idem b h.1 h.2]
  | asyncFunctionDef n b =>
    rw [noConsecDocStmt, Bool.and_eq_true] at h
    rw [visitStmt, visitStmt, visitStrippedBody_idem b h.1 h.2]
  | classDef n b =>
    rw [noConsecDocStmt, Bool.and_eq_true] at h
    rw [visitStmt, visitStmt, visitStrippedBody_idem b h.1 h.2]
  | ifStmt t b =>
    rw [noConsecDocStmt] at h
    rw [visitStmt, visitStmt, visitBody_idem b h]
termination_by sizeOf s

theorem visitBody_idem (b : List Stmt) (h : noConsecDocList b = true) :
    visitBody (visitBody b) = visitBody b := by
  cases b with
  | nil => rfl
  | cons s rest =>
    rw [noConsecDocList, Bool.and_eq_true] at h
    rw [visitBody, visitBody, visitStmt_idem s h.1, visitBody_idem rest h.2]
termination_by sizeOf b

theorem visitStrippedBody_idem (b : List Stmt) (h1 : leadingPairOk b = true)
    (h2 : noConsecDocList b = true) :
    visitStrippedBody (visitStrippedBody b) = visitStrippedBody b := by
  cases b with
  | nil => rfl
  | cons s0 rest =>
    rw [noConsecDocList, Bool.and_eq_true] at h2
    by_cases hdoc : isDocstringStmt s0 = true
    · obtain ⟨sx, rfl⟩ := isDocstringStmt_true hdoc
      show visitStrippedBody (visitBody rest) = visitBody rest
      cases rest with
      | nil => rfl
      | cons r0 r1 =>
        have hr0 : isDocstringStmt r0 = false := by
          rw [leadingPairOk] at h1
          simpa [isDocstringStmt] using h1
        rw [noConsecDocList, Bool.and_eq_true] at h2
        rw [visitBody, visitStrippedBody_of_not_doc _ _
          (by rw [isDocstringStmt_visitStmt]; exact hr0)]
        rw [visitStmt_idem r0 h2.2.1, visitBody_idem r1 h2.2.2]
    · have hs0 : isDocstringStmt s0 = false := by simpa using hdoc
      rw [visitStrippedBody_of_not_doc s0 rest hs0]
      rw [visitStrippedBody_of_not_doc _ _
        (by rw [isDocstringStmt_visitStmt]; exact hs0)]
      rw [visitStmt_idem s0 h2.1, visitBody_idem rest h2.2]
termination_by sizeOf b

end

theorem visitModule_idem (m : PyModule) (h : noConsecDocModule m = true) :
    visitModule (visitModule m) = visitModule m := by
  rw [noConsecDocModule, Bool.and_eq_true] at h
  show (⟨visitBody (stripDocstringFromBody (visitBody (stripDocstringFromBody m.body)))⟩ :
      PyModule) = ⟨visitBody (stripDocstringFromBody m.body)⟩
  rw [← visitStrippedBody_eq, ← visitStrippedBody_eq]
  rw [visitStrippedBody_idem m.body h.1 h.2]

/-!  Remaining helper lemmas for the claim theorems. -/

theorem strip_comments_ok_of_parse {parse : String → Except String PyModule}
    {x : String} {t : PyModule} (hw : stripIsEmpty x = false) (hp : parse x = .ok t) :
    strip_comments parse x = .ok (ensureTrailingNewline (unparse (visitModule t))) := by
  rw [strip_comments, if_neg (by simp [hw]), hp]

theorem mem_of_mem_ensure {u : String} {c : Char}
    (h : c ∈ (ensureTrailingNewline u).data) (hc : c ≠ '\n') : c ∈ u.data := by
  rw [ensureTrailingNewline] at h
  split at h
  · exact h
  · rw [String.data_append] at h
    rcases List.mem_append.1 h with h1 | h2
    · exact h1
    · simp at h2
      exact absurd h2 hc

theorem mem_of_mem_dropLeading {s : String} {c : Char}
    (h : c ∈ (dropLeadingNewlines s).data) : c ∈ s.data := by
  rw [dropLeadingNewlines] at h
  exact (List.dropWhile_sublist _).subset h

theorem unparse_last_shape (m : PyModule) :
    (unparse m).data.getLast? = none ∨
      ∃ c, (unparse m).data.getLast? = some c ∧ c ≠ '\n' := by
  rcases hb : m.body with _ | ⟨s0, rest⟩
  · left
    rw [unparse, hb]
    rfl
  · right
    obtain ⟨c, hc, hsp⟩ := unparse_getLast (m := m) (by rw [hb]; simp)
    refine ⟨c, hc, ?_⟩
    intro hh
    subst hh
    exact absurd hsp (by decide)

/-!  Claim theorems. -/

/-- C1: the claim says every valid non-whitespace input yields re-parseable
Python, in particular when a body consists solely of its docstring.  The
code violates this: on `def f():⏎    "doc"⏎` (whose tree is
`modFnDocOnly`, exactly what `ast.parse` produces) the transformation
returns `def f():⏎` — a function definition with an empty suite, which is
not parseable Python (CPython raises `IndentationError`).  The theorem
evaluates the embedded pipeline at this failing input. -/
theorem c1_empty_body_output_not_reparseable :
    strip_comments parseFix "def f():\n    \"doc\"\n" = .ok "def f():\n" := rfl

/-- C2: every `#` in the output of a successful run lies inside a rendered
string-literal token (given that the tree's definition names and
assignment targets are `#`-free, as all Python identifiers are), and a
string literal containing `#` used as an ordinary expression is preserved:
the second conjunct evaluates the pipeline on
`def g():⏎    return "# not a comment"⏎`. -/
theorem c2_hash_marker_erasure_and_preservation :
    (∀ (parse : String → Except String PyModule) (x : String) (t : PyModule)
        (out : String),
      parse x = .ok t → moduleNoHashNames (visitModule t) = true →
      strip_comments parse x = .ok out →
      ∀ c ∈ out.data, c = '#' →
        ∃ f ∈ bodyFragsD 0 (visitModule t).body,
          f.isLit = true ∧ c ∈ (Frag.render f).data)
    ∧ strip_comments parseFix "def g():\n    return \"# not a comment\"\n"
        = .ok "def g():\n    return '# not a comment'\n" := by
  constructor
  · intro parse x t out hp hnh hok c hc hch
    subst hch
    obtain ⟨t2, hp2, hout⟩ := strip_comments_ok_shape hok
    rw [hp] at hp2
    cases hp2
    subst hout
    have h1 : ('#' : Char) ∈ (unparse (visitModule t)).data :=
      mem_of_mem_ensure hc (by decide)
    have h2 : ('#' : Char) ∈ (renderFrags (bodyFragsD 0 (visitModule t).body)).data :=
      mem_of_mem_dropLeading h1
    obtain ⟨f, hf, hcf⟩ := mem_renderFrags h2
    cases hlit : f.isLit with
    | false => exact absurd hcf (bodyFragsDNoHash 0 _ hnh f hf hlit)
    | true => exact ⟨f, hf, hlit, hcf⟩
  · rfl

/-- Witness for C2 at the spec's own scenario: the `#` in the output of
`def g():⏎    return "# not a comment"⏎` comes from a string-literal
token. -/
theorem c2_witness :
    ∃ f ∈ bodyFragsD 0 (visitModule modHashString).body,
      f.isLit = true ∧ '#' ∈ (Frag.render f).data :=
  c2_hash_marker_erasure_and_preservation.1 parseFix
    "def g():\n    return \"# not a comment\"\n" modHashString
    "def g():\n    return '# not a comment'\n" rfl rfl rfl '#' (by decide) rfl

/-- C3: the docstring detection removes the first statement exactly when
the body is non-empty and begins with an expression statement whose value
is a string constant; bytes literals, f-strings and `+`-concatenations of
literals at body start are never removed.  (Adjacent string literals such
as `"a" "b"` are folded into one string constant by the parser before the
detection runs, so no separate concatenation node reaches it.) -/
theorem c3_docstring_detection_rule :
    (∀ (s : String) (rest : List Stmt),
      stripDocstringFromBody (.exprStmt (.constant (.str s)) :: rest) = rest)
    ∧ (∀ b : List Stmt,
        (¬ ∃ s rest, b = .exprStmt (.constant (.str s)) :: rest) →
        stripDocstringFromBody b = b)
    ∧ (∀ (s : String) (rest : List Stmt),
        stripDocstringFromBody (.exprStmt (.constant (.bytes s)) :: rest)
          = .exprStmt (.constant (.bytes s)) :: rest)
    ∧ (∀ (s : String) (rest : List Stmt),
        stripDocstringFromBody (.exprStmt (.fstring s) :: rest)
          = .exprStmt (.fstring s) :: rest)
    ∧ (∀ (l r : PyExpr) (rest : List Stmt),
        stripDocstringFromBody (.exprStmt (.binop l r) :: rest)
          = .exprStmt (.binop l r) :: rest) := by
  refine ⟨fun s rest => rfl, ?_, fun s rest => rfl, fun s rest => rfl, fun l r rest => rfl⟩
  intro b hb
  cases b with
  | nil => rfl
  | cons f rest =>
    have hf : isDocstringStmt f = false := by
      cases hd : isDocstringStmt f
      · rfl
      · obtain ⟨sx, rfl⟩ := isDocstringStmt_true hd
        exact absurd ⟨sx, rest, rfl⟩ hb
    exact stripDocstringFromBody_of_not_doc f rest hf

/-- Witness for C3: a leading string literal is removed, and a body whose
head is not a bare string literal is untouched. -/
theorem c3_witness :
    stripDocstringFromBody [.exprStmt (.constant (.str "d")), .pass] = [.pass]
    ∧ stripDocstringFromBody [.pass] = [.pass] :=
  ⟨c3_docstring_detection_rule.1 "d" [.pass],
   c3_docstring_detection_rule.2.1 [.pass] (by rintro ⟨s, rest, h⟩; simp at h)⟩

/-- C4: the stripper never removes more than the single leading statement
(the result of `_strip_docstring_from_body` is the tail or the unchanged
body, and removal implies the head was a docstring); the visitor leaves an
assignment of a string literal intact; and a bare string literal in second
position survives the whole transformation. -/
theorem c4_at_most_leading_statement_removed :
    (∀ b : List Stmt,
      stripDocstringFromBody b = b.tail ∨ stripDocstringFromBody b = b)
    ∧ (∀ (s0 : Stmt) (b : List Stmt),
        stripDocstringFromBody (s0 :: b) = b → isDocstringStmt s0 = true)
    ∧ (∀ (x sx : String),
        visitStmt (.assign x (.constant (.str sx))) = .assign x (.constant (.str sx)))
    ∧ (∀ (s0 : Stmt) (sx : String) (rest : List Stmt),
        ∃ pre,
          visitBody (stripDocstringFromBody
              (s0 :: .exprStmt (.constant (.str sx)) :: rest))
            = pre ++ .exprStmt (.constant (.str sx)) :: visitBody rest
          ∧ (pre = [] ∨ pre = [visitStmt s0])) := by
  refine ⟨?_, ?_, fun x sx => rfl, ?_⟩
  · intro b
    cases b with
    | nil => exact Or.inr rfl
    | cons f rest =>
      cases hd : isDocstringStmt f
      · exact Or.inr (stripDocstringFromBody_of_not_doc f rest hd)
      · obtain ⟨sx, rfl⟩ := isDocstringStmt_true hd
        exact Or.inl rfl
  · intro s0 b h
    cases hd : isDocstringStmt s0
    · rw [stripDocstringFromBody_of_not_doc s0 b hd] at h
      have := congrArg List.length h
      simp at this
    · rfl
  · intro s0 sx rest
    cases hd : isDocstringStmt s0
    · refine ⟨[visitStmt s0], ?_, Or.inr rfl⟩
      rw [stripDocstringFromBody_of_not_doc s0 _ hd]
      rfl
    · obtain ⟨s0x, rfl⟩ := isDocstringStmt_true hd
      exact ⟨[], rfl, Or.inl rfl⟩

/-- Witness for C4: a leading docstring removal keeps the second-position
string literal, and removal of a head implies it was a docstring. -/
theorem c4_witness :
    (∃ pre,
      visitBody (stripDocstringFromBody
          [.exprStmt (.constant (.str "doc")), .exprStmt (.constant (.str "keep"))])
        = pre ++ [.exprStmt (.constant (.str "keep"))]
      ∧ (pre = [] ∨ pre = [visitStmt (.exprStmt (.constant (.str "doc")))]))
    ∧ isDocstringStmt (.exprStmt (.constant (.str "doc"))) = true :=
  ⟨c4_at_most_leading_statement_removed.2.2.2
      (.exprStmt (.constant (.str "doc"))) "keep" [],
   c4_at_most_leading_statement_removed.2.1 (.exprStmt (.constant (.str "doc"))) [] rfl⟩

/-- C5: `strip_comments` fails with the `ValueError` (`invalidInput`)
exactly when the input is empty or whitespace-only, fails with the
propagated `SyntaxError` when the non-whitespace input does not parse, and
returns normally whenever the parser succeeds. -/
theorem c5_error_conditions :
    ∀ (parse : String → Except String PyModule) (source : String),
      (stripIsEmpty source = true →
        strip_comments parse source = .error .invalidInput)
      ∧ (strip_comments parse source = .error .invalidInput →
          stripIsEmpty source = true)
      ∧ (stripIsEmpty source = false → ∀ msg, parse source = .error msg →
          strip_comments parse source = .error (.parseFailure msg))
      ∧ (stripIsEmpty source = false → ∀ t, parse source = .ok t →
          ∃ out, strip_comments parse source = .ok out) := by
  intro parse source
  refine ⟨?_, ?_, ?_, ?_⟩
  · intro h
    rw [strip_comments, if_pos h]
  · intro h
    by_contra hne
    rw [Bool.not_eq_true] at hne
    rw [strip_comments, if_neg (by simp [hne])] at h
    rcases hp : parse source with msg | t <;> rw [hp] at h <;> cases h
  · intro hw msg hp
    rw [strip_comments, if_neg (by simp [hw]), hp]
  · intro hw t hp
    exact ⟨_, strip_comments_ok_of_parse hw hp⟩

/-- Witness for C5: concrete failures on empty and whitespace-only input,
a syntax failure on malformed input, and a normal return on valid input. -/
theorem c5_witness :
    strip_comments parseFix "" = .error .invalidInput
    ∧ strip_comments parseFix "   \n" = .error .invalidInput
    ∧ strip_comments parseFix "def f(:\n    pass\n"
        = .error (.parseFailure "invalid syntax")
    ∧ ∃ out, strip_comments parseFix "x = None\n" = .ok out :=
  ⟨(c5_error_conditions parseFix "").1 rfl,
   (c5_error_conditions parseFix "   \n").1 rfl,
   (c5_error_conditions parseFix "def f(:\n    pass\n").2.2.1 rfl "invalid syntax" rfl,
   (c5_error_conditions parseFix "x = None\n").2.2.2 rfl modAssignNone rfl⟩

/-- C6: the normalization appends a newline only when absent and leaves
text already ending in a newline unchanged, and every successful output
ends with exactly one trailing newline (its final character is a newline
and the character before it, if any, is not). -/
theorem c6_trailing_newline_normalization :
    (∀ t : String, endsWithNL t = true → ensureTrailingNewline t = t)
    ∧ (∀ t : String, endsWithNL t = false → ensureTrailingNewline t = t ++ "\n")
    ∧ (∀ (parse : String → Except String PyModule) (x out : String),
        strip_comments parse x = .ok out →
        ∃ l, out.data = l ++ ['\n'] ∧ l.getLast? ≠ some '\n') := by
  refine ⟨?_, ?_, ?_⟩
  · intro t h
    rw [ensureTrailingNewline, if_pos h]
  · intro t h
    rw [ensureTrailingNewline, if_neg (by simp [h])]
  · intro parse x out hok
    obtain ⟨t, hp, hout⟩ := strip_comments_ok_shape hok
    subst hout
    exact ensureTrailingNewline_shape _ (unparse_last_shape (visitModule t))

/-- Witness for C6: normalization at newline-terminated and bare texts,
and the exactly-one-newline shape of a concrete run. -/
theorem c6_witness :
    ensureTrailingNewline "x = None\n" = "x = None\n"
    ∧ ensureTrailingNewline "x = None" = "x = None" ++ "\n"
    ∧ ∃ l, ("x = None\n").data = l ++ ['\n'] ∧ l.getLast? ≠ some '\n' :=
  ⟨c6_trailing_newline_normalization.1 "x = None\n" rfl,
   c6_trailing_newline_normalization.2.1 "x = None" rfl,
   c6_trailing_newline_normalization.2.2 parseFix "x = None\n" "x = None\n" rfl⟩

/-- C7 counterexample: the claim asserts idempotence on every valid,
comment-free input.  On `"a"⏎"b"⏎` (two bare string literals; the lookup
parser returns exactly the trees CPython produces for the three strings
involved) one application yields `"""b"""⏎`, whose own transformation is
`⏎` — running twice differs from running once. -/
theorem c7_counterexample_double_docstring :
    strip_comments parseFix "\"a\"\n\"b\"\n" = .ok "\"\"\"b\"\"\"\n"
    ∧ strip_comments parseFix "\"\"\"b\"\"\"\n" = .ok "\n"
    ∧ ("\n" : String) ≠ "\"\"\"b\"\"\"\n" :=
  ⟨rfl, rfl, by decide⟩

/-- C7 as amended: idempotence holds for valid non-whitespace input whose
tree has no body starting with two consecutive bare string literals and
whose transformed tree is non-empty, provided the parser round-trips the
produced text back to the transformed tree. -/
theorem c7_idempotent_amended :
    ∀ (parse : String → Except String PyModule) (x : String) (t : PyModule),
      stripIsEmpty x = false → parse x = .ok t →
      noConsecDocModule t = true → (visitModule t).body ≠ [] →
      parse (ensureTrailingNewline (unparse (visitModule t))) = .ok (visitModule t) →
      ∃ y, strip_comments parse x = .ok y ∧ strip_comments parse y = .ok y := by
  intro parse x t hw hp hcon hne hrt
  refine ⟨ensureTrailingNewline (unparse (visitModule t)),
    strip_comments_ok_of_parse hw hp, ?_⟩
  have hyw : stripIsEmpty (ensureTrailingNewline (unparse (visitModule t))) = false := by
    obtain ⟨c, hc, hsp⟩ := unparse_getLast hne
    refine stripIsEmpty_false_of_mem (c := c) ?_ hsp
    rw [ensureTrailingNewline]
    split
    · exact mem_data_of_getLast? hc
    · rw [String.data_append]
      exact List.mem_append.2 (Or.inl (mem_data_of_getLast? hc))
  rw [strip_comments_ok_of_parse hyw hrt, visitModule_idem t hcon]

/-- Witness for C7 as amended, at the already-stripped input `x = None⏎`. -/
theorem c7_witness :
    ∃ y, strip_comments parseFix "x = None\n" = .ok y
      ∧ strip_comments parseFix y = .ok y :=
  c7_idempotent_amended parseFix "x = None\n" modAssignNone rfl rfl rfl
    (List.cons_ne_nil _ _) rfl

/-- C8 counterexample: the claim asserts a usage error whenever the given
paths together match more than one file.  With two single-file paths and
no `--inplace`, the paths together match two files (first conjunct), yet
the CLI returns success and writes the first path's text to stdout: only
`paths[0]` is consulted. -/
theorem c8_counterexample_two_paths :
    strip_paths_m stripPathFix ["a.py", "b.py"]
        = .ok [("a.py", "x = 1\n"), ("b.py", "y = 2\n")]
    ∧ process_paths stripPathFix ["a.py", "b.py"] false = (EXIT_SUCCESS, "x = 1\n")
    ∧ EXIT_SUCCESS ≠ EXIT_USAGE ∧ ("x = 1\n" : String) ≠ "" :=
  ⟨rfl, rfl, by decide, by decide⟩

/-- C8 as amended: without `--inplace` the CLI consults only the first
path (later paths are ignored); it succeeds and writes the single
transformed text to stdout exactly when that first path resolves to one
file, reports a usage error (exit code 2) with nothing written when it
resolves to any other number of files, and maps processing errors to exit
code 1 with nothing written. -/
theorem c8_first_path_only :
    (∀ (f : String → Except PathError (List (String × String)))
        (p : String) (ps : List String),
      process_paths f (p :: ps) false = process_paths f [p] false)
    ∧ (∀ (f : String → Except PathError (List (String × String)))
        (p : String) (ps : List String) (key content : String),
        f p = .ok [(key, content)] →
        process_paths f (p :: ps) false = (EXIT_SUCCESS, content))
    ∧ (∀ (f : String → Except PathError (List (String × String)))
        (p : String) (ps : List String) (rs : List (String × String)),
        f p = .ok rs → rs.length ≠ 1 →
        process_paths f (p :: ps) false = (EXIT_USAGE, ""))
    ∧ (∀ (f : String → Except PathError (List (String × String)))
        (p : String) (ps : List String) (e : PathError),
        f p = .error e →
        process_paths f (p :: ps) false = (EXIT_FAILURE, "")) := by
  refine ⟨fun f p ps => rfl, ?_, ?_, ?_⟩
  · intro f p ps key content h
    rw [process_paths, h]
    rfl
  · intro f p ps rs h hlen
    rw [process_paths, h]
    rcases rs with _ | ⟨⟨k, v⟩, _ | ⟨x2, r2⟩⟩
    · rfl
    · exact absurd rfl hlen
    · rfl
  · intro f p ps e h
    rw [process_paths, h]
    rfl

/-- Witness for C8 as amended: single-file success, empty-match usage
error, and missing-path failure, with a later path ignored. -/
theorem c8_witness :
    process_paths stripPathFix ["a.py", "b.py"] false
        = process_paths stripPathFix ["a.py"] false
    ∧ process_paths stripPathFix ["a.py", "b.py"] false = (EXIT_SUCCESS, "x = 1\n")
    ∧ process_paths stripPathFix ["empty_dir"] false = (EXIT_USAGE, "")
    ∧ process_paths stripPathFix ["missing.py"] false = (EXIT_FAILURE, "") :=
  ⟨c8_first_path_only.1 stripPathFix "a.py" ["b.py"],
   c8_first_path_only.2.1 stripPathFix "a.py" ["b.py"] "a.py" "x = 1\n" rfl,
   c8_first_path_only.2.2.1 stripPathFix "empty_dir" [] [] rfl (by decide),
   c8_first_path_only.2.2.2 stripPathFix "missing.py" [] .notFound rfl⟩

/-- C9: a module whose statements consist solely of its docstring (any
comments are already absent from the parsed tree) transforms to exactly
the one-character string consisting of a newline: the emptied module
unparses to the empty string and the normalization appends the single
newline. -/
theorem c9_docstring_only_module_yields_newline :
    ∀ (parse : String → Except String PyModule) (x s : String),
      stripIsEmpty x = false →
      parse x = .ok ⟨[.exprStmt (.constant (.str s))]⟩ →
      strip_comments parse x = .ok "\n" := by
  intro parse x s hw hp
  rw [strip_comments_ok_of_parse hw hp]
  rfl

/-- Witness for C9 on the source `"""Mod"""⏎# c⏎`. -/
theorem c9_witness :
    strip_comments parseFix "\"\"\"Mod\"\"\"\n# c\n" = .ok "\n" :=
  c9_docstring_only_module_yields_newline parseFix "\"\"\"Mod\"\"\"\n# c\n" "Mod" rfl rfl

/-- C10: the `.py` filter is case-insensitive for a single-file target and
for non-recursive directory listing (the suffix is lower-cased before
comparison), while recursive enumeration uses the case-sensitive glob
`*.py`; consequently a directory holding only `A.PY` yields that file
non-recursively and nothing recursively. -/
theorem c10_extension_filter_case_sensitivity :
    (∀ (n : String) (r : Bool),
      iter_python_files (.file n) r
        = if pyLower (pySuffix n) = ".py" then [.file n] else [])
    ∧ (∀ (dn : String) (cs : List FSNode) (c : FSNode),
        c ∈ iter_python_files (.dir dn cs) false ↔
          c ∈ cs ∧ c.isFile = true ∧ pyLower (pySuffix c.name) = ".py")
    ∧ (∀ (dn : String) (cs : List FSNode) (c : FSNode),
        c ∈ iter_python_files (.dir dn cs) true ↔
          c ∈ fsDescendantsList cs ∧ c.isFile = true
            ∧ strEndsWith c.name ".py" = true)
    ∧ iter_python_files (.dir "d" [.file "A.PY"]) false = [.file "A.PY"]
    ∧ iter_python_files (.dir "d" [.file "A.PY"]) true = [] := by
  refine ⟨fun n r => rfl, ?_, ?_, rfl, rfl⟩
  · intro dn cs c
    simp [iter_python_files, List.mem_filter, Bool.and_eq_true, and_assoc]
  · intro dn cs c
    simp [iter_python_files, List.mem_filter, Bool.and_eq_true, and_assoc,
      starPyGlobMatch]

/-- Witness for C10: membership of the upper-case file under the
non-recursive listing, via the characterisation. -/
theorem c10_witness :
    FSNode.file "A.PY" ∈ iter_python_files (.dir "d" [.file "A.PY"]) false :=
  (c10_extension_filter_case_sensitivity.2.1 "d" [.file "A.PY"] (.file "A.PY")).2
    ⟨by simp, rfl, rfl⟩
